import Mathlib

/-! ## ptcpdump: event ingestion pipeline

A shallow embedding of `bpf/event.go` (the three perf-buffer readers and their
record decoders) and of `internal/consumer/net.go` (the packet event consumer),
followed by the properties proved about them.

Conventions of the embedding.

* A byte is a `Fin 256`; a Go `[]byte` is a `List Byte`.
* Go `int` is the 64-bit two's complement integer of the supported targets; a
  value of type `int` is an `Int`, and every arithmetic result and conversion
  is passed through `wrapInt`.
* The struct types `BpfPacketEventT`, `BpfExecEventT` and `BpfExitEventT` are
  generated from the kernel-side C declarations, not written in these two
  files. Their layout is a parameter: a list of `Field`s, flattened in
  declaration order, each either an integer field of some byte width or blank
  padding.
* The send on the output queue in the reader loop appends to the events sent:
  a full queue delays the send, it does not change what is sent.
* A run-time panic of the Go code is an explicit outcome (`Result.crash`,
  `none` for the buffer size), never silently turned into a value.
-/

namespace Ptcpdump

/-! ## Machine integers -/

/-- Value of a Go `int` after 64-bit two's complement wrap-around. -/
def wrapInt (x : Int) : Int := (x + 2 ^ 63) % 2 ^ 64 - 2 ^ 63

/-- Go conversion `int(x)` of an unsigned integer `x`. -/
def toInt (x : Nat) : Int := wrapInt (x : Int)

/-! ## Wire format: `encoding/binary` over a fixed-size struct -/

abbrev Byte := Fin 256

/-- One flattened field of a generated struct: an integer of `width` bytes, or
`width` bytes of blank (`_`) padding, which `encoding/binary` skips on read and
writes as zeros. The value of an integer field is kept as the natural number of
its bit pattern. -/
inductive Field where
  | val (width : Nat)
  | blank (width : Nat)
  deriving DecidableEq, Repr

/-- Number of bytes a field occupies. -/
def Field.size : Field → Nat
  | .val w => w
  | .blank w => w

/-- Encoded size of a struct, `binary.Size`: the sum of its fields' sizes. -/
def structSize : List Field → Nat
  | [] => 0
  | f :: fs => f.size + structSize fs

/-- Little-endian value of a byte string, `binary.LittleEndian.UintN`. -/
def leDecode : List Byte → Nat
  | [] => 0
  | b :: bs => b.val + 256 * leDecode bs

/-- Little-endian encoding of `v` on `width` bytes, `binary.LittleEndian.PutUintN`. -/
def leEncode : Nat → Nat → List Byte
  | 0, _ => []
  | w + 1, v => ⟨v % 256, Nat.mod_lt _ (by decide)⟩ :: leEncode w (v / 256)

/-- Decoding of the fields of a struct from a buffer, in declaration order:
what `binary.Read` does once it holds `structSize` bytes. -/
def decodeFields : List Field → List Byte → List Nat
  | [], _ => []
  | .val w :: fs, bs => leDecode (bs.take w) :: decodeFields fs (bs.drop w)
  | .blank w :: fs, bs => decodeFields fs (bs.drop w)

/-- Serialisation of a struct, `binary.Write` with `binary.LittleEndian`: the
fields in declaration order, a missing value written as zero. -/
def encodeFields : List Field → List Nat → List Byte
  | [], _ => []
  | .val w :: fs, [] => leEncode w 0 ++ encodeFields fs []
  | .val w :: fs, v :: vs => leEncode w v ++ encodeFields fs vs
  | .blank w :: fs, vs => List.replicate w 0 ++ encodeFields fs vs

/-- The errors `io.ReadFull` reports on a short buffer. -/
inductive IOError where
  | EOF
  | ErrUnexpectedEOF
  deriving DecidableEq, Repr

/-- Go `binary.Read(bytes.NewBuffer(buf), binary.LittleEndian, &v)` for a struct
`v` with the given fields: `io.ReadFull` of `structSize` bytes, which fails with
`io.EOF` on an empty buffer and `io.ErrUnexpectedEOF` on a short one, then the
field-wise little-endian decode. -/
def binaryRead (fields : List Field) (buf : List Byte) : Except IOError (List Nat) :=
  if buf.length < structSize fields then
    if buf.length = 0 then .error .EOF else .error .ErrUnexpectedEOF
  else .ok (decodeFields fields (buf.take (structSize fields)))

/-- Go builtin `copy(dst, src)`: the first `min (len dst) (len src)` bytes of
`dst` are overwritten by those of `src`. The result is the new content of `dst`. -/
def copy (dst src : List Byte) : List Byte :=
  src.take dst.length ++ dst.drop src.length

/-! ## Packet records -/

/-- Layout of the generated `BpfPacketEventT`, whose single member is the
header `Meta`: the flattened fields of `Meta` and the position of
`Meta.PacketSize` among its integer fields. -/
structure Layout where
  fields : List Field
  packetSizeIdx : Nat
  deriving Repr

/-- Modelled from the spec: the declaration of `BpfPacketEventT`, which is
generated code. The payload is sliced from the raw record immediately following
the fixed header, so the struct is the header `Meta` alone, its padding
explicit, and Go `unsafe.Sizeof(BpfPacketEventT{})` is the encoded size of
`Meta`. -/
def Layout.sizeofT (L : Layout) : Nat := structSize L.fields

/-- Go `BpfPacketEventWithPayloadT`: the embedded `BpfPacketEventT` (its `Meta`,
as the values of the header's integer fields in order) and the `Payload`. -/
structure BpfPacketEventWithPayloadT where
  Meta : List Nat
  Payload : List Byte
  deriving DecidableEq, Repr

/-- The header field `Meta.PacketSize` of a decoded header. -/
def packetSize (L : Layout) (m : List Nat) : Nat := m.getD L.packetSizeIdx 0

/-- The error values the decoders return (`xerrors.Errorf` wrapping the cause). -/
inductive DecodeError where
  | parseMeta (cause : IOError)
  | parseEvent (cause : IOError)
  deriving DecidableEq, Repr

/-- Outcome of a decoder call: the `(*T, nil)` return, the `(nil, err)` return,
or a run-time panic of the Go code. -/
inductive Result (α : Type) where
  | ok (v : α)
  | err (e : DecodeError)
  | crash
  deriving DecidableEq, Repr

/-- Go `parsePacketEvent`. The header is read with `binary.Read`; the payload
is `make([]byte, int(event.Meta.PacketSize))`, which panics on a negative
length, filled by `copy` from `rawSample[unsafe.Sizeof(BpfPacketEventT{}):]`,
which panics when the record is shorter than the offset. An allocation of a
length that is not negative is taken to succeed. -/
def parsePacketEvent (L : Layout) (rawSample : List Byte) : Result BpfPacketEventWithPayloadT :=
  match binaryRead L.fields rawSample with
  | .error e => .err (.parseMeta e)
  | .ok m =>
    let n := toInt (packetSize L m)
    if n < 0 then .crash
    else if rawSample.length < L.sizeofT then .crash
    else .ok { Meta := m, Payload := copy (List.replicate n.toNat 0) (rawSample.drop L.sizeofT) }

/-- Go `parseExecEvent`, for a `BpfExecEventT` with the given fields. -/
def parseExecEvent (fields : List Field) (rawSample : List Byte) : Result (List Nat) :=
  match binaryRead fields rawSample with
  | .error e => .err (.parseEvent e)
  | .ok ev => .ok ev

/-- Go `parseExitEvent`, for a `BpfExitEventT` with the given fields. -/
def parseExitEvent (fields : List Field) (rawSample : List Byte) : Result (List Nat) :=
  match binaryRead fields rawSample with
  | .error e => .err (.parseEvent e)
  | .ok ev => .ok ev

/-- A header layout used for concrete records: an 8-byte timestamp, a 1-byte
packet type with 3 bytes of padding, a 4-byte interface index, a 4-byte process
id with 4 bytes of padding, and an 8-byte `PacketSize` (integer field number
4); 32 bytes in all. -/
def sampleLayout : Layout :=
  { fields := [.val 8, .val 1, .blank 3, .val 4, .val 4, .blank 4, .val 8], packetSizeIdx := 4 }

/-- The raw record of a header and a payload: the header serialised
little-endian in field order, followed by the payload bytes. -/
def serialize (L : Layout) (m : List Nat) (payload : List Byte) : List Byte :=
  encodeFields L.fields m ++ payload

/-- The header of a raw record that is at least header-long, as `binary.Read`
decodes it. -/
def headerOf (L : Layout) (rawSample : List Byte) : List Nat :=
  decodeFields L.fields (rawSample.take L.sizeofT)

/-- A header value is well typed for a layout: one value per integer field, each
within the range of its width. -/
def WellTyped : List Field → List Nat → Prop
  | [], vs => vs = []
  | .val _ :: _, [] => False
  | .val w :: fs, v :: vs => v < 256 ^ w ∧ WellTyped fs vs
  | .blank _ :: fs, vs => WellTyped fs vs

/-! ## Per-CPU buffer sizing -/

/-- Go division of two `int`s: truncation toward zero, wrapped to 64 bits. -/
def goDiv (a b : Int) : Int := wrapInt (Int.tdiv a b)

/-- The block shared by the three readers,
`if eventSize >= perCPUBuffer { perCPUBuffer = perCPUBuffer * (1 + (eventSize / perCPUBuffer)) }`,
returning the final `perCPUBuffer`; `none` is the integer-divide-by-zero panic. -/
def scaleBuffer (perCPUBuffer eventSize : Int) : Option Int :=
  if eventSize ≥ perCPUBuffer then
    if perCPUBuffer = 0 then none
    else some (wrapInt (perCPUBuffer * wrapInt (1 + goDiv eventSize perCPUBuffer)))
  else some perCPUBuffer

/-- The `perCPUBuffer` that `PullPacketEvents` hands to `perf.NewReader`, for
page size `pageSize` (`os.Getpagesize()`), `sizeofT = unsafe.Sizeof(BpfPacketEventT{})`
and the argument `maxPacketSize`. -/
def PullPacketEvents.perCPUBuffer (pageSize : Int) (sizeofT : Nat) (maxPacketSize : Int) : Option Int :=
  let perCPUBuffer := wrapInt (pageSize * 64)
  let eventSize := wrapInt (toInt sizeofT + maxPacketSize)
  scaleBuffer perCPUBuffer eventSize

/-- The `perCPUBuffer` that `PullExecEvents` hands to `perf.NewReader`, with
`sizeofT = unsafe.Sizeof(BpfExecEventT{})`. -/
def PullExecEvents.perCPUBuffer (pageSize : Int) (sizeofT : Nat) : Option Int :=
  let perCPUBuffer := wrapInt (pageSize * 64)
  let eventSize := toInt sizeofT
  scaleBuffer perCPUBuffer eventSize

/-- The `perCPUBuffer` that `PullExitEvents` hands to `perf.NewReader`, with
`sizeofT = unsafe.Sizeof(BpfExitEventT{})`. -/
def PullExitEvents.perCPUBuffer (pageSize : Int) (sizeofT : Nat) : Option Int :=
  let perCPUBuffer := wrapInt (pageSize * 4)
  let eventSize := toInt sizeofT
  scaleBuffer perCPUBuffer eventSize

/-- An integer is representable as a Go `int`. -/
def Fits (x : Int) : Prop := -2 ^ 63 ≤ x ∧ x < 2 ^ 63

/-- The sizing rule in words, for a default capacity `B`, a maximal event size
`e` and the capacity `r` computed: when `e` is smaller than `B` the capacity is
exactly `B`, and otherwise it is the smallest multiple of `B` that strictly
exceeds `e`. -/
def CapacityRule (B e : Int) (r : Option Int) : Prop :=
  (e < B → r = some B) ∧
  (B ≤ e → ∃ cap, r = some cap ∧ B ∣ cap ∧ e < cap ∧ ∀ m, B ∣ m → e < m → cap ≤ m)

/-! ## The packet reader loop -/

/-- The error of a failed `reader.Read()`, as far as the loop tells them apart
with `errors.Is`. -/
inductive ReadError where
  | ErrClosed
  | EOF
  | ErrUnexpectedEOF
  | other
  deriving DecidableEq, Repr

/-- A `perf.Record`: the raw sample and the `uint64` count of lost samples. -/
structure Record where
  RawSample : List Byte
  LostSamples : Nat
  deriving DecidableEq, Repr

/-- What one call of `reader.Read()` returns. -/
abbrev ReadResult := Except ReadError Record

/-- Lines the reader loop writes to the log. -/
inductive ReaderLog where
  | debugEOF
  | errorRead
  | errorParse (e : DecodeError)
  deriving DecidableEq, Repr

/-- The state the loop of `handlePacketEvents` acts on: `b.report.Dropped`, the
events sent on `ch` so far (oldest first) and the log. -/
structure ReaderState where
  Dropped : Int
  ch : List BpfPacketEventWithPayloadT
  log : List ReaderLog
  deriving DecidableEq, Repr

/-- How a run of the reader loop over a finite script of reads ends: by the
`ctx.Done()` case, by `perf.ErrClosed`, by a panic of the decoder, or still
inside `reader.Read()`, the script having no further result to deliver. -/
inductive LoopExit where
  | cancelled
  | readerClosed
  | crashed
  | blockedInRead
  deriving DecidableEq, Repr

/-- The end of the loop body of `handlePacketEvents`:
`if record.LostSamples > 0 { b.report.Dropped += int(record.LostSamples) }`. -/
def addDropped (record : Record) (st : ReaderState) : ReaderState :=
  if record.LostSamples > 0 then
    { st with Dropped := wrapInt (st.Dropped + toInt record.LostSamples) }
  else st

/-- Go `(*BPF).handlePacketEvents`. The reader is the script of results its
successive `Read` calls return; `cancelled i` tells whether the token is
cancelled when the loop checks it for the `i`-th time (from `i = 0`). The send
`ch <- *event` appends to the events sent. -/
def handlePacketEvents (L : Layout) (cancelled : Nat → Bool) :
    Nat → List ReadResult → ReaderState → LoopExit × ReaderState
  | i, script, st =>
    if cancelled i then (.cancelled, st)
    else match script with
      | [] => (.blockedInRead, st)
      | .error .ErrClosed :: _ => (.readerClosed, st)
      | .error .EOF :: rest =>
        handlePacketEvents L cancelled (i + 1) rest { st with log := st.log ++ [.debugEOF] }
      | .error .ErrUnexpectedEOF :: rest =>
        handlePacketEvents L cancelled (i + 1) rest { st with log := st.log ++ [.debugEOF] }
      | .error .other :: rest =>
        handlePacketEvents L cancelled (i + 1) rest { st with log := st.log ++ [.errorRead] }
      | .ok record :: rest =>
        match parsePacketEvent L record.RawSample with
        | .crash => (.crashed, st)
        | .err e =>
          handlePacketEvents L cancelled (i + 1) rest
            (addDropped record { st with log := st.log ++ [.errorParse e] })
        | .ok event =>
          handlePacketEvents L cancelled (i + 1) rest
            (addDropped record { st with ch := st.ch ++ [event] })

/-- A Go channel as its receiver sees it: the buffered values, oldest first,
and whether it has been closed. -/
structure Chan (α : Type) where
  buf : List α
  closed : Bool
  deriving DecidableEq, Repr

/-- The goroutine started by `PullPacketEvents`, run over a script of reads on
a fresh channel with no receiver taking values meanwhile: the loop, then the
deferred `reader.Close()` and `close(ch)` once the loop has left. -/
def PullPacketEvents.goroutine (L : Layout) (cancelled : Nat → Bool) (script : List ReadResult)
    (st : ReaderState) : Chan BpfPacketEventWithPayloadT × ReaderState :=
  match handlePacketEvents L cancelled 0 script { st with ch := [] } with
  | (.blockedInRead, st1) => ({ buf := st1.ch, closed := false }, st1)
  | (_, st1) => ({ buf := st1.ch, closed := true }, st1)

section Consumer

variable {α β ω : Type}

/-- What the consumer does to the outside, in order: calls of `Write` and
`Flush` on a writer, and the two error lines it logs. -/
inductive Action (β ω : Type) where
  | Write (w : ω) (pevent : β)
  | Flush (w : ω)
  | LogParseFailed
  | LogWriteFailed (w : ω)
  deriving DecidableEq, Repr

/-- The collaborators of the consumer. `ParsePacketEvent pt` is
`event.ParsePacketEvent(c.deviceCache, pt)`, `none` when it returns an error;
`writeFails history w pevent` tells whether `w.Write(pevent)` returns an error,
given everything done so far; `zero` is the zero value of the event type, which
a receive on a closed and drained channel yields. -/
structure Env (α β ω : Type) where
  ParsePacketEvent : α → Option β
  writeFails : List (Action β ω) → ω → β → Bool
  zero : α

/-- Go `PacketEventConsumer`: the writers and the processed count. The device
cache lives in `Env.ParsePacketEvent`; the start-up delay only sleeps. -/
structure PacketEventConsumer (ω : Type) where
  writers : List ω
  processedCount : Int
  deriving DecidableEq, Repr

/-- Go `NewPacketEventConsumer`. -/
def NewPacketEventConsumer (writers : List ω) : PacketEventConsumer ω :=
  { writers := writers, processedCount := 0 }

/-- Go `(*PacketEventConsumer).ProcessedCount`. -/
def PacketEventConsumer.ProcessedCount (c : PacketEventConsumer ω) : Int := c.processedCount

/-- The loop `for _, w := range c.writers` of `handlePacketEvent`, extending
the history of actions. -/
def writeAll (env : Env α β ω) (pevent : β) : List ω → List (Action β ω) → List (Action β ω)
  | [], tr => tr
  | w :: ws, tr =>
    let tr1 := tr ++ [.Write w pevent]
    let tr2 := if env.writeFails tr w pevent then tr1 ++ [.LogWriteFailed w] else tr1
    writeAll env pevent ws (tr2 ++ [.Flush w])

/-- Go `(*PacketEventConsumer).handlePacketEvent`, extending the history of
actions. -/
def handlePacketEvent (env : Env α β ω) (c : PacketEventConsumer ω)
    (tr : List (Action β ω)) (pt : α) : List (Action β ω) :=
  match env.ParsePacketEvent pt with
  | none => tr ++ [.LogParseFailed]
  | some pevent => writeAll env pevent c.writers tr

/-- Go receive `<-ch` as a select case: `none` when the case is not ready (open
and empty), else the value received and the channel left; a closed and drained
channel is always ready and yields the zero value. -/
def Chan.recv (zero : α) (ch : Chan α) : Option (α × Chan α) :=
  match ch.buf with
  | x :: rest => some (x, { ch with buf := rest })
  | [] => if ch.closed then some (zero, ch) else none

/-- The scheduling a run of `Start` is subject to: whether the token is
cancelled at the `i`-th select, and whether the runtime picks the
`ctx.Done()` case when both cases are ready. -/
structure Schedule where
  cancelled : Nat → Bool
  pickDone : Nat → Bool

/-- The schedule of a token that is never cancelled. -/
def Schedule.never : Schedule := { cancelled := fun _ => false, pickDone := fun _ => false }

/-- The consumer, what it has done and the queue it reads. -/
structure RunState (α β ω : Type) where
  c : PacketEventConsumer ω
  tr : List (Action β ω)
  ch : Chan α

/-- How far a run of `Start` got: it returned, it waits in the select with no
case ready, or it is still looping when the step budget ends. -/
inductive Status where
  | returned
  | blocked
  | running
  deriving DecidableEq, Repr

/-- Go `(*PacketEventConsumer).Start`, run for at most `fuel` iterations of its
loop from the `i`-th select on, on the queue as it stands (nothing is enqueued
meanwhile). `maxPacketCount` is the `uint` argument. -/
def Start (env : Env α β ω) (sched : Schedule) (maxPacketCount : Nat) :
    Nat → Nat → RunState α β ω → Status × RunState α β ω
  | 0, _, s => (.running, s)
  | fuel + 1, i, s =>
    match sched.cancelled i, Chan.recv env.zero s.ch with
    | true, none => (.returned, s)
    | false, none => (.blocked, s)
    | cancelled, some (pt, ch1) =>
      if cancelled && sched.pickDone i then (.returned, s)
      else
        let tr1 := handlePacketEvent env s.c s.tr pt
        let c1 : PacketEventConsumer ω :=
          { s.c with processedCount := wrapInt (s.c.processedCount + 1) }
        if maxPacketCount > 0 && c1.processedCount ≥ toInt maxPacketCount then
          (.returned, { c := c1, tr := tr1, ch := ch1 })
        else Start env sched maxPacketCount fuel (i + 1) { c := c1, tr := tr1, ch := ch1 }

/-- The calls made on the writers in a history: its `Write` and `Flush`
actions, in order. -/
def sinkCalls : List (Action β ω) → List (Action β ω)
  | [] => []
  | .Write w p :: rest => .Write w p :: sinkCalls rest
  | .Flush w :: rest => .Flush w :: sinkCalls rest
  | _ :: rest => sinkCalls rest

/-- The calls an event owes the writers: `Write` then `Flush` on each writer
in list order. -/
def expectedCalls (pevent : β) (writers : List ω) : List (Action β ω) :=
  writers.flatMap fun w => [.Write w pevent, .Flush w]

/-- One handled event as a state update: the effect of `handlePacketEvent` and
of `c.processedCount++`. -/
def handled (env : Env α β ω) (s : PacketEventConsumer ω × List (Action β ω)) (pt : α) :
    PacketEventConsumer ω × List (Action β ω) :=
  ({ s.1 with processedCount := wrapInt (s.1.processedCount + 1) }, handlePacketEvent env s.1 s.2 pt)

/-- The calls a queue of events owes the writers: those of each event whose
enrichment succeeds, in queue order. -/
def expectedCallsOf (env : Env α β ω) (writers : List ω) (events : List α) : List (Action β ω) :=
  events.flatMap fun pt =>
    match env.ParsePacketEvent pt with
    | some pevent => expectedCalls pevent writers
    | none => []

end Consumer

/-- Collaborators used for concrete runs: enrichment always succeeds and leaves
the event as it is, the writers are numbered, and writer 0 fails on every
`Write`. The zero value is that of an event for `sampleLayout`. -/
def sampleEnv : Env BpfPacketEventWithPayloadT BpfPacketEventWithPayloadT Nat :=
  { ParsePacketEvent := fun pt => some pt,
    writeFails := fun _ w _ => decide (w = 0),
    zero := { Meta := [0, 0, 0, 0, 0], Payload := [] } }

/-- Three events for concrete runs. -/
def sampleEvents : List BpfPacketEventWithPayloadT :=
  [{ Meta := [1, 2, 3, 5, 1], Payload := [11] },
   { Meta := [2, 2, 3, 5, 1], Payload := [22] },
   { Meta := [3, 2, 3, 5, 1], Payload := [33] }]

/-! # Properties -/

/-! ## Machine integers -/

theorem wrapInt_of_range (x : Int) (h1 : -2 ^ 63 ≤ x) (h2 : x < 2 ^ 63) : wrapInt x = x := by
  unfold wrapInt
  omega

theorem toInt_of_lt (n : Nat) (h : n < 2 ^ 63) : toInt n = (n : Int) := by
  unfold toInt
  apply wrapInt_of_range
  · have : (0 : Int) ≤ (n : Int) := Int.ofNat_nonneg n
    omega
  · exact_mod_cast h

/-! ## Codec -/

theorem length_leEncode (w v : Nat) : (leEncode w v).length = w := by
  induction w generalizing v with
  | zero => rfl
  | succ w ih => simp [leEncode, ih]

theorem leDecode_leEncode (w v : Nat) (h : v < 256 ^ w) : leDecode (leEncode w v) = v := by
  induction w generalizing v with
  | zero =>
    simp at h
    simp [leEncode, leDecode, h]
  | succ w ih =>
    have hq : v / 256 < 256 ^ w := by
      rw [Nat.div_lt_iff_lt_mul (by decide)]
      rw [pow_succ] at h
      exact h
    simp only [leEncode, leDecode, ih _ hq]
    omega

theorem length_encodeFields (fs : List Field) (vs : List Nat) :
    (encodeFields fs vs).length = structSize fs := by
  induction fs generalizing vs with
  | nil => simp [encodeFields, structSize]
  | cons f fs ih =>
    cases f with
    | val w =>
      cases vs with
      | nil => simp [encodeFields, structSize, Field.size, length_leEncode, ih]
      | cons v vs => simp [encodeFields, structSize, Field.size, length_leEncode, ih]
    | blank w => simp [encodeFields, structSize, Field.size, ih]

theorem decodeFields_encodeFields (fs : List Field) (vs : List Nat) (h : WellTyped fs vs) :
    decodeFields fs (encodeFields fs vs) = vs := by
  induction fs generalizing vs with
  | nil => simp [WellTyped] at h; simp [decodeFields, h]
  | cons f fs ih =>
    cases f with
    | val w =>
      cases vs with
      | nil => simp [WellTyped] at h
      | cons v vs =>
        simp only [WellTyped] at h
        simp only [encodeFields, decodeFields]
        rw [List.take_left' (length_leEncode w v), List.drop_left' (length_leEncode w v),
          leDecode_leEncode w v h.1, ih vs h.2]
    | blank w =>
      simp only [WellTyped] at h
      simp only [encodeFields, decodeFields]
      rw [List.drop_left' (List.length_replicate w 0), ih vs h]

theorem binaryRead_short (fs : List Field) (buf : List Byte) (h : buf.length < structSize fs) :
    binaryRead fs buf = .error (if buf.length = 0 then .EOF else .ErrUnexpectedEOF) := by
  unfold binaryRead
  rw [if_pos h]
  split <;> rfl

theorem binaryRead_long (fs : List Field) (buf : List Byte) (h : structSize fs ≤ buf.length) :
    binaryRead fs buf = .ok (decodeFields fs (buf.take (structSize fs))) := by
  unfold binaryRead
  rw [if_neg (by omega)]

theorem copy_short (n : Nat) (src : List Byte) (h : src.length ≤ n) :
    copy (List.replicate n 0) src = src ++ List.replicate (n - src.length) 0 := by
  unfold copy
  rw [List.length_replicate, List.take_of_length_le h, List.drop_replicate]

theorem parsePacketEvent_long (L : Layout) (raw : List Byte) (h : L.sizeofT ≤ raw.length)
    (hfit : packetSize L (headerOf L raw) < 2 ^ 63) :
    parsePacketEvent L raw =
      .ok { Meta := headerOf L raw,
            Payload := copy (List.replicate (packetSize L (headerOf L raw)) 0) (raw.drop L.sizeofT) } := by
  have hread : binaryRead L.fields raw = .ok (headerOf L raw) := binaryRead_long L.fields raw h
  have hn : (0 : Int) ≤ (packetSize L (headerOf L raw) : Int) := Int.ofNat_nonneg _
  unfold parsePacketEvent
  rw [hread]
  simp only [toInt_of_lt _ hfit]
  rw [if_neg (by omega), if_neg (by omega), Int.toNat_ofNat]

/-! ## Decoding of packet, exec and exit records -/

/-- C2: round trip. For every layout, every well-typed header `m` and every
payload whose length is the header's `PacketSize`, decoding the header
serialised little-endian in field order followed by the payload succeeds and
gives back exactly the header and the payload, of length `PacketSize`. -/
theorem parsePacketEvent_serialize (L : Layout) (m : List Nat) (payload : List Byte)
    (hm : WellTyped L.fields m) (hP : packetSize L m = payload.length)
    (hlen : payload.length < 2 ^ 63) :
    ∃ ev, parsePacketEvent L (serialize L m payload) = .ok ev ∧
      ev.Meta = m ∧ ev.Payload = payload ∧ ev.Payload.length = packetSize L m := by
  have hsz : (encodeFields L.fields m).length = L.sizeofT := length_encodeFields L.fields m
  have hhead : headerOf L (serialize L m payload) = m := by
    unfold headerOf serialize
    rw [List.take_left' hsz, decodeFields_encodeFields L.fields m hm]
  have hdrop : (serialize L m payload).drop L.sizeofT = payload := by
    unfold serialize
    rw [List.drop_left' hsz]
  have hlong : L.sizeofT ≤ (serialize L m payload).length := by
    unfold serialize
    rw [List.length_append, hsz]
    omega
  have hrun := parsePacketEvent_long L (serialize L m payload) hlong (by rw [hhead, hP]; exact hlen)
  rw [hhead, hdrop, hP, copy_short _ payload (le_refl _)] at hrun
  simp only [Nat.sub_self, List.replicate_zero, List.append_nil] at hrun
  exact ⟨_, hrun, rfl, rfl, hP.symm⟩

/-- C2 at a concrete record: header values 1, 2, 3, 5 and `PacketSize` 2 with
the payload 170, 187. -/
theorem parsePacketEvent_serialize_witness :
    ∃ ev, parsePacketEvent sampleLayout (serialize sampleLayout [1, 2, 3, 5, 2] [170, 187]) = .ok ev ∧
      ev.Meta = [1, 2, 3, 5, 2] ∧ ev.Payload = [170, 187] ∧
      ev.Payload.length = packetSize sampleLayout [1, 2, 3, 5, 2] :=
  parsePacketEvent_serialize sampleLayout [1, 2, 3, 5, 2] [170, 187]
    (by simp [WellTyped, sampleLayout]) (by decide) (by decide)

/-- C3: each of the three decoders, given a raw record shorter than its fixed
struct size (the empty record included), returns a decode error, wrapping
`io.EOF` for the empty record and `io.ErrUnexpectedEOF` otherwise: no event and
no panic. -/
theorem short_record_is_decode_error (L : Layout) (execFields exitFields : List Field)
    (raw : List Byte) :
    (raw.length < L.sizeofT →
      parsePacketEvent L raw
        = .err (.parseMeta (if raw.length = 0 then .EOF else .ErrUnexpectedEOF))) ∧
    (raw.length < structSize execFields →
      parseExecEvent execFields raw
        = .err (.parseEvent (if raw.length = 0 then .EOF else .ErrUnexpectedEOF))) ∧
    (raw.length < structSize exitFields →
      parseExitEvent exitFields raw
        = .err (.parseEvent (if raw.length = 0 then .EOF else .ErrUnexpectedEOF))) := by
  refine ⟨fun h => ?_, fun h => ?_, fun h => ?_⟩
  · unfold parsePacketEvent
    rw [binaryRead_short L.fields raw h]
  · unfold parseExecEvent
    rw [binaryRead_short execFields raw h]
  · unfold parseExitEvent
    rw [binaryRead_short exitFields raw h]

/-- C3 at a concrete record: 3 bytes against the 32-byte packet header, an
8-byte exec struct and a 4-byte exit struct. -/
theorem short_record_is_decode_error_witness :
    parsePacketEvent sampleLayout [7, 8, 9] = .err (.parseMeta .ErrUnexpectedEOF) ∧
    parseExecEvent [.val 8] [7, 8, 9] = .err (.parseEvent .ErrUnexpectedEOF) ∧
    parseExitEvent [.val 4] [7, 8, 9] = .err (.parseEvent .ErrUnexpectedEOF) :=
  have h := short_record_is_decode_error sampleLayout [.val 8] [.val 4] [7, 8, 9]
  ⟨h.1 (by decide), h.2.1 (by decide), h.2.2 (by decide)⟩

/-! ## Per-CPU buffer sizing -/

theorem scaleBuffer_small (B e : Int) (h : e < B) : scaleBuffer B e = some B := by
  unfold scaleBuffer
  rw [if_neg (by omega)]

theorem scaleBuffer_large (B e : Int) (hB : 0 < B) (h : B ≤ e)
    (hcap : B * (1 + e / B) < 2 ^ 63) :
    scaleBuffer B e = some (B * (1 + e / B)) := by
  have hq1 : 1 ≤ e / B := by
    rw [Int.le_ediv_iff_mul_le hB]
    omega
  have hqB : 1 + e / B ≤ B * (1 + e / B) := by nlinarith
  have hdiv : Int.tdiv e B = e / B := Int.tdiv_eq_ediv (by omega) (by omega)
  have hqe : e / B ≤ e := by
    have := Int.emod_add_ediv e B
    have := Int.emod_nonneg e (show B ≠ 0 by omega)
    nlinarith
  unfold scaleBuffer goDiv
  rw [if_pos (by omega), if_neg (by omega), hdiv,
    wrapInt_of_range (e / B) (by omega) (by omega),
    wrapInt_of_range (1 + e / B) (by omega) (by omega),
    wrapInt_of_range (B * (1 + e / B)) (by nlinarith) hcap]

theorem scaled_is_least_multiple (B e : Int) (hB : 0 < B) :
    B ∣ B * (1 + e / B) ∧ e < B * (1 + e / B) ∧
      ∀ m, B ∣ m → e < m → B * (1 + e / B) ≤ m := by
  refine ⟨Dvd.intro _ rfl, ?_, ?_⟩
  · have := Int.lt_ediv_add_one_mul_self e hB
    nlinarith
  · rintro m ⟨k, rfl⟩ hm
    have hk : e / B < k := by
      rw [Int.ediv_lt_iff_lt_mul hB]
      nlinarith
    have : 1 + e / B ≤ k := by omega
    exact Int.mul_le_mul_of_nonneg_left this (by omega)

theorem scaleBuffer_rule (B e : Int) (hB : 0 < B)
    (hcap : B ≤ e → B * (1 + e / B) < 2 ^ 63) : CapacityRule B e (scaleBuffer B e) := by
  refine ⟨fun h => scaleBuffer_small B e h, fun h => ?_⟩
  exact ⟨_, scaleBuffer_large B e hB h (hcap h), scaled_is_least_multiple B e hB⟩

/-- C4: for every page size above 0, header size `H` above 0 and maximal
payload size `M` at least 0, when no step of the computation overflows a Go
`int`, the per-CPU capacity that `PullPacketEvents` computes is strictly
greater than `H + M` and is a multiple of the page size. -/
theorem PullPacketEvents_perCPUBuffer_bounds (pageSize : Int) (H : Nat) (M : Int)
    (hp : 0 < pageSize) (hH : 0 < H) (hM : 0 ≤ M)
    (hsum : (H : Int) + M < 2 ^ 63)
    (hcap : pageSize * 64 * (1 + ((H : Int) + M) / (pageSize * 64)) < 2 ^ 63) :
    ∃ cap, PullPacketEvents.perCPUBuffer pageSize H M = some cap ∧
      (H : Int) + M < cap ∧ pageSize ∣ cap := by
  have hHn : (0 : Int) < (H : Int) := by exact_mod_cast hH
  have hq : 0 ≤ ((H : Int) + M) / (pageSize * 64) := Int.ediv_nonneg (by omega) (by omega)
  have hB : pageSize * 64 < 2 ^ 63 := by nlinarith
  have h1 : wrapInt (pageSize * 64) = pageSize * 64 := wrapInt_of_range _ (by omega) hB
  have h2 : toInt H = (H : Int) := toInt_of_lt H (by omega)
  have h3 : wrapInt ((H : Int) + M) = (H : Int) + M := wrapInt_of_range _ (by omega) hsum
  unfold PullPacketEvents.perCPUBuffer
  simp only [h1, h2, h3]
  by_cases hlt : (H : Int) + M < pageSize * 64
  · exact ⟨_, scaleBuffer_small _ _ hlt, hlt, Dvd.intro _ rfl⟩
  · have hle : pageSize * 64 ≤ (H : Int) + M := by omega
    have hl := scaled_is_least_multiple (pageSize * 64) ((H : Int) + M) (by omega)
    refine ⟨_, scaleBuffer_large _ _ (by omega) hle hcap, hl.2.1, ?_⟩
    rw [mul_assoc]
    exact Dvd.intro _ rfl

/-- C4 at concrete sizes: 4096-byte pages, a 32-byte header and a maximal
payload of 262144 bytes. -/
theorem PullPacketEvents_perCPUBuffer_bounds_witness :
    ∃ cap, PullPacketEvents.perCPUBuffer 4096 32 262144 = some cap ∧
      ((32 : Nat) : Int) + 262144 < cap ∧ (4096 : Int) ∣ cap :=
  PullPacketEvents_perCPUBuffer_bounds 4096 32 262144 (by decide) (by decide) (by decide)
    (by decide) (by decide)

/-- C5, as stated, fails for `PullExitEvents`: with 4096-byte pages and an
8-byte exit struct, smaller than 64 pages, the capacity computed is
4 × 4096 = 16384, not 64 × 4096 = 262144. -/
theorem PullExitEvents_perCPUBuffer_not_64_pages :
    PullExitEvents.perCPUBuffer 4096 8 = some 16384 ∧
    ¬ CapacityRule (4096 * 64) ((8 : Nat) : Int) (PullExitEvents.perCPUBuffer 4096 8) := by
  have h : PullExitEvents.perCPUBuffer 4096 8 = some 16384 := by decide
  refine ⟨h, fun hr => ?_⟩
  have := hr.1 (by decide)
  rw [h] at this
  exact absurd this (by decide)

/-- C5, amended: the default capacity is 64 pages for `PullPacketEvents` and
`PullExecEvents` and 4 pages for `PullExitEvents`. For each reader, when no
step of the computation overflows a Go `int`: if the maximal event size is
smaller than the reader's default the capacity is exactly that default, and
otherwise it is the smallest multiple of that default that strictly exceeds the
maximal event size. -/
theorem perCPUBuffer_rule (pageSize : Int) (hp : 0 < pageSize) :
    (∀ (H : Nat) (M : Int), pageSize * 64 < 2 ^ 63 → H < 2 ^ 63 → Fits ((H : Int) + M) →
      (pageSize * 64 ≤ (H : Int) + M →
        pageSize * 64 * (1 + ((H : Int) + M) / (pageSize * 64)) < 2 ^ 63) →
      CapacityRule (pageSize * 64) ((H : Int) + M) (PullPacketEvents.perCPUBuffer pageSize H M)) ∧
    (∀ H : Nat, pageSize * 64 < 2 ^ 63 → H < 2 ^ 63 →
      (pageSize * 64 ≤ (H : Int) → pageSize * 64 * (1 + (H : Int) / (pageSize * 64)) < 2 ^ 63) →
      CapacityRule (pageSize * 64) (H : Int) (PullExecEvents.perCPUBuffer pageSize H)) ∧
    (∀ H : Nat, pageSize * 4 < 2 ^ 63 → H < 2 ^ 63 →
      (pageSize * 4 ≤ (H : Int) → pageSize * 4 * (1 + (H : Int) / (pageSize * 4)) < 2 ^ 63) →
      CapacityRule (pageSize * 4) (H : Int) (PullExitEvents.perCPUBuffer pageSize H)) := by
  refine ⟨fun H M hB hH hsum hcap => ?_, fun H hB hH hcap => ?_, fun H hB hH hcap => ?_⟩
  · have h1 : wrapInt (pageSize * 64) = pageSize * 64 := wrapInt_of_range _ (by omega) hB
    have h2 : toInt H = (H : Int) := toInt_of_lt H hH
    have h3 : wrapInt ((H : Int) + M) = (H : Int) + M := wrapInt_of_range _ hsum.1 hsum.2
    unfold PullPacketEvents.perCPUBuffer
    simp only [h1, h2, h3]
    exact scaleBuffer_rule _ _ (by omega) hcap
  · have h1 : wrapInt (pageSize * 64) = pageSize * 64 := wrapInt_of_range _ (by omega) hB
    have h2 : toInt H = (H : Int) := toInt_of_lt H hH
    unfold PullExecEvents.perCPUBuffer
    simp only [h1, h2]
    exact scaleBuffer_rule _ _ (by omega) hcap
  · have h1 : wrapInt (pageSize * 4) = pageSize * 4 := wrapInt_of_range _ (by omega) hB
    have h2 : toInt H = (H : Int) := toInt_of_lt H hH
    unfold PullExitEvents.perCPUBuffer
    simp only [h1, h2]
    exact scaleBuffer_rule _ _ (by omega) hcap

/-- C5, amended, with 4096-byte pages: a 32-byte header with
a 300000-byte maximal payload, a 300000-byte exec struct and a 20000-byte exit
struct, each larger than its reader's default capacity. -/
theorem perCPUBuffer_rule_witness :
    (0 : Int) < 4096 ∧
    CapacityRule (4096 * 64) (((32 : Nat) : Int) + 300000)
      (PullPacketEvents.perCPUBuffer 4096 32 300000) ∧
    CapacityRule (4096 * 64) ((300000 : Nat) : Int) (PullExecEvents.perCPUBuffer 4096 300000) ∧
    CapacityRule (4096 * 4) ((20000 : Nat) : Int) (PullExitEvents.perCPUBuffer 4096 20000) :=
  have h := perCPUBuffer_rule 4096 (by decide)
  ⟨by decide,
   h.1 32 300000 (by decide) (by decide) ⟨by decide, by decide⟩ (fun _ => by decide),
   h.2.1 300000 (by decide) (by decide) (fun _ => by decide),
   h.2.2 20000 (by decide) (by decide) (fun _ => by decide)⟩

/-! ## The packet reader loop -/

section ConsumerProofs

variable {α β ω : Type}

theorem sinkCalls_append (a b : List (Action β ω)) :
    sinkCalls (a ++ b) = sinkCalls a ++ sinkCalls b := by
  induction a with
  | nil => rfl
  | cons x xs ih => cases x <;> simp [sinkCalls, ih]

theorem sinkCalls_writeAll (env : Env α β ω) (pevent : β) (ws : List ω)
    (tr : List (Action β ω)) :
    sinkCalls (writeAll env pevent ws tr) = sinkCalls tr ++ expectedCalls pevent ws := by
  induction ws generalizing tr with
  | nil => simp [writeAll, expectedCalls]
  | cons w ws ih =>
    have hcons : expectedCalls pevent (w :: ws)
        = [Action.Write w pevent, Action.Flush w] ++ expectedCalls pevent ws := by
      simp [expectedCalls]
    rw [writeAll, ih, hcons]
    by_cases hf : env.writeFails tr w pevent = true
    · simp [hf, sinkCalls_append, sinkCalls]
    · simp [hf, sinkCalls_append, sinkCalls]

theorem sinkCalls_handlePacketEvent (env : Env α β ω) (c : PacketEventConsumer ω)
    (tr : List (Action β ω)) (pt : α) :
    sinkCalls (handlePacketEvent env c tr pt)
      = sinkCalls tr ++ expectedCallsOf env c.writers [pt] := by
  unfold handlePacketEvent expectedCallsOf
  cases h : env.ParsePacketEvent pt with
  | none => simp [sinkCalls_append, sinkCalls, h]
  | some pevent => simp [sinkCalls_writeAll, h]

theorem handled_writers (env : Env α β ω) (events : List α)
    (s : PacketEventConsumer ω × List (Action β ω)) :
    (events.foldl (handled env) s).1.writers = s.1.writers := by
  induction events generalizing s with
  | nil => rfl
  | cons x xs ih => rw [List.foldl_cons, ih]; rfl

theorem sinkCalls_handled (env : Env α β ω) (events : List α)
    (s : PacketEventConsumer ω × List (Action β ω)) :
    sinkCalls (events.foldl (handled env) s).2
      = sinkCalls s.2 ++ expectedCallsOf env s.1.writers events := by
  induction events generalizing s with
  | nil => simp [expectedCallsOf]
  | cons x xs ih =>
    rw [List.foldl_cons, ih]
    have h1 : (handled env s x).1.writers = s.1.writers := rfl
    have h2 : (handled env s x).2 = handlePacketEvent env s.1 s.2 x := rfl
    rw [h1, h2, sinkCalls_handlePacketEvent]
    simp [expectedCallsOf]

/-- A run of `Start` with the token never cancelled on a queue that holds the
events still missing to reach `maxPacketCount`: it handles them in queue order
and returns, leaving the rest of the queue. -/
theorem Start_run (env : Env α β ω) (N : Nat) (hint : N < 2 ^ 63) (rest : List α)
    (closed : Bool) (first : List α) :
    ∀ (fuel i k : Nat) (c : PacketEventConsumer ω) (tr : List (Action β ω)),
      first ≠ [] → first.length ≤ fuel → c.processedCount = (k : Int) →
      k + first.length = N →
      Start env Schedule.never N fuel i
          { c := c, tr := tr, ch := { buf := first ++ rest, closed := closed } }
        = (.returned,
            { c := (first.foldl (handled env) (c, tr)).1,
              tr := (first.foldl (handled env) (c, tr)).2,
              ch := { buf := rest, closed := closed } }) ∧
      (first.foldl (handled env) (c, tr)).1.processedCount = (N : Int) := by
  induction first with
  | nil => intro fuel i k c tr h; exact absurd rfl h
  | cons x xs ih =>
    intro fuel i k c tr _ hfuel hc hk
    simp only [List.length_cons] at hfuel hk
    obtain ⟨f, rfl⟩ : ∃ f, fuel = f + 1 := ⟨fuel - 1, by omega⟩
    have hcount : wrapInt (c.processedCount + 1) = (k : Int) + 1 := by
      rw [hc, wrapInt_of_range _ (by omega) (by omega)]
    have hN : toInt N = (N : Int) := toInt_of_lt N hint
    have hnever : Schedule.never.cancelled i = false := rfl
    by_cases hxs : xs = []
    · subst hxs
      simp only [List.length_nil] at hk
      simp only [Start, hnever, Chan.recv, List.cons_append, List.nil_append,
        Bool.false_and, List.foldl_cons, List.foldl_nil, handled, hcount, hN]
      have hge : (N : Int) ≤ (k : Int) + 1 := by omega
      have hpos : 0 < N := by omega
      simp only [hpos, hge, decide_True, Bool.and_self, ge_iff_le, if_true, true_and,
        Bool.false_eq_true, if_false]
      omega
    · have hlt : k + 1 < N := by
        have : 0 < xs.length := List.length_pos.mpr hxs
        omega
      have hstep := ih f (i + 1) (k + 1) { c with processedCount := wrapInt (c.processedCount + 1) }
        (handlePacketEvent env c tr x) hxs (by omega) (by rw [hcount]; push_cast; rfl) (by omega)
      simp only [hcount] at hstep
      simp only [Start, hnever, Chan.recv, List.cons_append,
        Bool.false_and, List.foldl_cons, handled, hcount, hN]
      have hnot : ¬ ((N : Int) ≤ (k : Int) + 1) := by omega
      simp only [hnot, decide_False, Bool.and_false, ge_iff_le, Bool.false_eq_true, if_false]
      exact hstep

end ConsumerProofs

/-- C6: stop after N. For every `N` above 0 (and within the range of a Go
`int`), a fresh consumer started with `maxPacketCount = N` on a queue whose
first `N` events are `first`, with the token never cancelled and at least `N`
loop iterations allowed, returns: it has handled exactly the events of `first`
in queue order, `ProcessedCount()` is `N`, and every later event is still on
the queue. -/
theorem Start_stops_after_N {α β ω : Type} (env : Env α β ω) (writers : List ω) (N : Nat)
    (first rest : List α) (closed : Bool) (fuel : Nat)
    (hN : 0 < N) (hint : N < 2 ^ 63) (hlen : first.length = N) (hfuel : N ≤ fuel) :
    ∃ c tr,
      Start env Schedule.never N fuel 0
          { c := NewPacketEventConsumer writers, tr := [],
            ch := { buf := first ++ rest, closed := closed } }
        = (.returned, { c := c, tr := tr, ch := { buf := rest, closed := closed } }) ∧
      c.ProcessedCount = (N : Int) ∧
      (c, tr) = first.foldl (handled env) (NewPacketEventConsumer writers, []) := by
  have hne : first ≠ [] := by
    intro h
    rw [h] at hlen
    simp at hlen
    omega
  have h := Start_run env N hint rest closed first fuel 0 0 (NewPacketEventConsumer writers) []
    hne (by omega) rfl (by omega)
  exact ⟨_, _, h.1, h.2, rfl⟩

/-- C6 at a concrete run: `N = 2` on the three `sampleEvents`. -/
theorem Start_stops_after_N_witness :
    ∃ c tr,
      Start sampleEnv Schedule.never 2 2 0
          { c := NewPacketEventConsumer [0, 1], tr := [],
            ch := { buf := sampleEvents.take 2 ++ sampleEvents.drop 2, closed := false } }
        = (.returned, { c := c, tr := tr, ch := { buf := sampleEvents.drop 2, closed := false } }) ∧
      c.ProcessedCount = ((2 : Nat) : Int) ∧
      (c, tr) = (sampleEvents.take 2).foldl (handled sampleEnv) (NewPacketEventConsumer [0, 1], []) :=
  Start_stops_after_N sampleEnv [0, 1] 2 (sampleEvents.take 2) (sampleEvents.drop 2) false 2
    (by decide) (by decide) (by decide) (by decide)

/-- C7: sink isolation. For every list of writers and every event whose
enrichment succeeds, `handlePacketEvent` calls `Write` and then `Flush` on every
writer once, in list order, whatever `Write` calls fail. And a fresh consumer
run over `N` queued events ends with a processed count of `N`, the writers
having received exactly the calls owed to the events in queue order. -/
theorem sink_isolation {α β ω : Type} (env : Env α β ω) (writers : List ω) (N : Nat)
    (events rest : List α) (closed : Bool) (fuel : Nat)
    (hN : 0 < N) (hint : N < 2 ^ 63) (hlen : events.length = N) (hfuel : N ≤ fuel) :
    (∀ (c : PacketEventConsumer ω) (tr : List (Action β ω)) (pt : α) (pevent : β),
      env.ParsePacketEvent pt = some pevent →
      sinkCalls (handlePacketEvent env c tr pt) = sinkCalls tr ++ expectedCalls pevent c.writers) ∧
    (∃ s,
      Start env Schedule.never N fuel 0
          { c := NewPacketEventConsumer writers, tr := [],
            ch := { buf := events ++ rest, closed := closed } } = (.returned, s) ∧
      s.c.ProcessedCount = (N : Int) ∧
      sinkCalls s.tr = expectedCallsOf env writers events) := by
  constructor
  · intro c tr pt pevent hp
    unfold handlePacketEvent
    rw [hp]
    exact sinkCalls_writeAll env pevent c.writers tr
  · have hne : events ≠ [] := by
      intro h
      rw [h] at hlen
      simp at hlen
      omega
    have h := Start_run env N hint rest closed events fuel 0 0 (NewPacketEventConsumer writers) []
      hne (by omega) rfl (by omega)
    refine ⟨_, h.1, h.2, ?_⟩
    have := sinkCalls_handled env events (NewPacketEventConsumer writers, [])
    simpa [sinkCalls, NewPacketEventConsumer] using this

/-- C7 at a concrete run: two writers of which writer 0 fails on every
`Write`, over the three `sampleEvents`; writer 1 still gets `Write` and `Flush`
for each event and the processed count is 3. -/
theorem sink_isolation_witness :
    (∀ (c : PacketEventConsumer Nat) (tr : List (Action BpfPacketEventWithPayloadT Nat))
        (pt pevent : BpfPacketEventWithPayloadT),
      sampleEnv.ParsePacketEvent pt = some pevent →
      sinkCalls (handlePacketEvent sampleEnv c tr pt)
        = sinkCalls tr ++ expectedCalls pevent c.writers) ∧
    (∃ s,
      Start sampleEnv Schedule.never 3 3 0
          { c := NewPacketEventConsumer [0, 1], tr := [],
            ch := { buf := sampleEvents ++ [], closed := false } } = (.returned, s) ∧
      s.c.ProcessedCount = ((3 : Nat) : Int) ∧
      sinkCalls s.tr = expectedCallsOf sampleEnv [0, 1] sampleEvents) :=
  sink_isolation sampleEnv [0, 1] 3 sampleEvents [] false 3
    (by decide) (by decide) (by decide) (by decide)

/-- C10, evaluated on the code: the reader goroutine, cancelled before any
read, closes its queue having enqueued no event. A consumer whose select then
picks the receive case twice before the `ctx.Done()` case returns with a
processed count of 2; one started with `maxPacketCount = 3` and a token that is
never cancelled returns with a processed count of 3. Every receive on the
closed and drained queue yields a zero event and is counted. -/
theorem Start_counts_receives_on_closed_queue :
    (PullPacketEvents.goroutine sampleLayout (fun _ => true) []
        { Dropped := 0, ch := [], log := [] }).1 = { buf := [], closed := true } ∧
    (Start sampleEnv { cancelled := fun _ => true, pickDone := fun i => decide (2 ≤ i) } 0 5 0
        { c := NewPacketEventConsumer [0, 1], tr := [],
          ch := { buf := [], closed := true } }).1 = .returned ∧
    (Start sampleEnv { cancelled := fun _ => true, pickDone := fun i => decide (2 ≤ i) } 0 5 0
        { c := NewPacketEventConsumer [0, 1], tr := [],
          ch := { buf := [], closed := true } }).2.c.ProcessedCount = 2 ∧
    (Start sampleEnv Schedule.never 3 5 0
        { c := NewPacketEventConsumer [0, 1], tr := [],
          ch := { buf := [], closed := true } }).1 = .returned ∧
    (Start sampleEnv Schedule.never 3 5 0
        { c := NewPacketEventConsumer [0, 1], tr := [],
          ch := { buf := [], closed := true } }).2.c.ProcessedCount = 3 := by
  decide

end Ptcpdump
